import Mathlib

/-!
Shallow embedding of the flashcard/HTTP-fetch application in `src/app.rs`.

The card store is modelled as a list of rows; the SQL queries issued through
the record mapper (`select!`, `update!`, `insert`) are embedded as list
functions with the same semantics (MIN/MAX aggregates return `none` on the
empty candidate set, mirroring the NULL row that fails the `i64` conversion
and is absorbed by `unwrap_or`).  The HTTP response classification
(`Resource::from_response`, `syntax_highlighting`) is embedded over a
response record carrying the URL, the declared content type, and the decoded
body (`none` when the bytes are undecodable, mirroring `ehttp::Response::text`).
The external highlighter `egui_extras::syntax_highlighting::highlight` is
total in the source (theme and extension always available); it is modelled
abstractly as a constructor recording its inputs.
-/

namespace Barnacle

/-- Minimum of a list of integers, `none` on the empty list.  Models the SQL
aggregate `MIN(rowid)`: on an empty candidate set the aggregate row is NULL,
the `i64` conversion fails and `unwrap_or` takes over. -/
def listMin : List Int → Option Int
  | [] => none
  | x :: xs => some ((listMin xs).elim x (min x))

/-- Maximum of a list of integers, `none` on the empty list; models `MAX(rowid)`. -/
def listMax : List Int → Option Int
  | [] => none
  | x :: xs => some ((listMax xs).elim x (max x))

/-- The `Card` record of `src/app.rs` (rowid is `Option<i64>`: absent before
the row is persisted). -/
structure Card where
  rowid : Option Int
  deleted : Bool
  title : String
  question : String
  answer : String
  last_question_viewed_ms : Int
  last_answer_viewed_ms : Int
deriving Repr, DecidableEq

/-- `Card::default()`: the derived Rust `Default` (empty strings, false, 0). -/
def Card.defaultCard : Card :=
  { rowid := none, deleted := false, title := "", question := "", answer := ""
    last_question_viewed_ms := 0, last_answer_viewed_ms := 0 }

/-- The persisted `card` table: a list of rows. -/
abbrev Store := List Card

/-- The rowids present in the table. -/
def Store.rowids (s : Store) : List Int := s.filterMap Card.rowid

/-- SQLite assigns `max(rowid) + 1` to a row inserted with a NULL rowid. -/
def nextRowid (s : Store) : Int := (Store.rowids s).foldr max 0 + 1

/-- `card.insert()`: append the row with the store-assigned fresh rowid. -/
def Store.insert (s : Store) (c : Card) : Store × Int :=
  (s ++ [{ c with rowid := some (nextRowid s) }], nextRowid s)

/-- Candidate set of `MIN(rowid) FROM card WHERE NOT deleted AND rowid > n`. -/
def Store.activeRowidsGt (s : Store) (n : Int) : List Int :=
  ((s.filter fun c => !c.deleted).filterMap Card.rowid).filter fun r => decide (n < r)

/-- Candidate set of `MAX(rowid) FROM card WHERE NOT deleted AND rowid < n`. -/
def Store.activeRowidsLt (s : Store) (n : Int) : List Int :=
  ((s.filter fun c => !c.deleted).filterMap Card.rowid).filter fun r => decide (r < n)

/-- `select!(i64 "MIN(rowid) FROM card WHERE NOT deleted AND rowid > " n)`. -/
def Store.minRowidGt (s : Store) (n : Int) : Option Int := listMin (s.activeRowidsGt n)

/-- `select!(i64 "MAX(rowid) FROM card WHERE NOT deleted AND rowid < " n)`. -/
def Store.maxRowidLt (s : Store) (n : Int) : Option Int := listMax (s.activeRowidsLt n)

/-- `select!(Vec<Card> "WHERE NOT deleted")`. -/
def Store.listActive (s : Store) : Store := s.filter fun c => !c.deleted

/-- `m` is the rowid of some non-deleted row and `n < m` (decidable form). -/
def Store.isActiveGt (s : Store) (n m : Int) : Bool :=
  s.any fun c => c.rowid == some m && !c.deleted && decide (n < m)

/-- `m` is the rowid of some non-deleted row and `m < n` (decidable form). -/
def Store.isActiveLt (s : Store) (n m : Int) : Bool :=
  s.any fun c => c.rowid == some m && !c.deleted && decide (m < n)

/-- `select!(Card "WHERE rowid = " n).unwrap_or_default()`: first matching row
or the default record. -/
def Store.getCard (s : Store) (n : Int) : Card :=
  (s.find? fun c => c.rowid == some n).getD Card.defaultCard

/-- `update!("card SET deleted = 1 WHERE rowid = " n)` (result ignored). -/
def Store.softDelete (s : Store) (n : Int) : Store :=
  s.map fun c => if c.rowid == some n then { c with deleted := true } else c

/-- A whole sequence of soft-deletes, applied left to right. -/
def Store.softDeletes (s : Store) : List Int → Store
  | [] => s
  | n :: ns => Store.softDeletes (s.softDelete n) ns

/-- The three independently updatable text fields of a card. -/
inductive Field where
  | title
  | question
  | answer
deriving Repr, DecidableEq

/-- Write one field of a card. -/
def Card.setField (c : Card) (f : Field) (v : String) : Card :=
  match f with
  | .title => { c with title := v }
  | .question => { c with question := v }
  | .answer => { c with answer := v }

/-- Read one field of a card. -/
def Card.getField (c : Card) (f : Field) : String :=
  match f with
  | .title => c.title
  | .question => c.question
  | .answer => c.answer

/-- `update!("card SET <field> = " v " WHERE rowid = " n)` (result ignored). -/
def Store.updateField (s : Store) (n : Int) (f : Field) (v : String) : Store :=
  s.map fun c => if c.rowid == some n then c.setField f v else c

/-- The keyboard events handled in the `ctx.input` block of `HttpApp::update`. -/
inductive Key where
  | arrowDown
  | arrowUp
  | enter
  | backspace
deriving Repr, DecidableEq

/-- The `ctx.input` keyboard branch of `HttpApp::update`: takes the current
`line_selected` and the store, returns the new selection and store. -/
def handleKey (k : Key) (lineSelected : Int) (s : Store) : Int × Store :=
  match k with
  | .arrowDown => ((s.minRowidGt lineSelected).getD lineSelected, s)
  | .arrowUp => ((s.maxRowidLt lineSelected).getD lineSelected, s)
  | .enter => (lineSelected, (s.insert Card.defaultCard).1)
  | .backspace =>
    ((s.softDelete lineSelected).minRowidGt lineSelected |>.getD 0,
      s.softDelete lineSelected)

/-- An insert outcome of the external record store: `some e` injects a store
rejection with error `e`, `none` lets the write through.  The pure list model
itself never fails, so the rejection is supplied as a parameter. -/
def Store.insertResult (reject : Option String) (s : Store) (c : Card) :
    Except String (Store × Int) :=
  match reject with
  | some e => .error e
  | none => .ok (s.insert c)

/-- The Enter branch including the `.unwrap()` on insert: a store rejection
aborts the operation (`none`), mirroring the panic of `unwrap`. -/
def enterKeyChecked (reject : Option String) (lineSelected : Int) (s : Store) :
    Option (Int × Store) :=
  match Store.insertResult reject s Card.defaultCard with
  | .ok (s2, _) => some (lineSelected, s2)
  | .error _ => none

/-- `str::starts_with`, on the character sequences of the two strings. -/
def strStartsWith (s p : String) : Bool := p.data.isPrefixOf s.data

/-- The parts of `ehttp::Response` that `Resource::from_response` reads:
`content_type` models `response.content_type()` (the Content-Type header, if
any) and `text` models `response.text()` (the decoded body, `none` when the
bytes are undecodable). -/
structure Response where
  url : String
  content_type : Option String
  text : Option String
deriving Repr, DecidableEq

/-- Output of the external highlighter, modelled abstractly as a record of the
inputs it was given. -/
structure LayoutJob where
  text : String
  extension : String
deriving Repr, DecidableEq

/-- `egui_extras::syntax_highlighting::highlight(ctx, theme, text, extension)`:
total in the source (the theme always exists and unknown extensions degrade to
an unhighlighted layout); modelled as the identity record. -/
def highlight (text : String) (extension : String) : LayoutJob := ⟨text, extension⟩

/-- `ColoredText(LayoutJob)`. -/
structure ColoredText where
  job : LayoutJob
deriving Repr, DecidableEq

/-- `egui::Image::from_uri(url)`: an image handle referencing the response
bytes by URL (cache key). -/
structure Image where
  uri : String
deriving Repr, DecidableEq

/-- Split a character list at its LAST dot: `some (before, after)`, or `none`
when no dot occurs. -/
def splitLastDot : List Char → Option (List Char × List Char)
  | [] => none
  | c :: cs =>
    match splitLastDot cs with
    | some (b, a) => some (c :: b, a)
    | none => if c = '.' then some ([], cs) else none

/-- `url.rsplitn(2, '.').collect()`: `[after-last-dot, rest]`, or `[url]` when
the URL contains no dot.  Never empty. -/
def rsplitn2Dot (s : String) : List String :=
  match splitLastDot s.data with
  | none => [s]
  | some (b, a) => [String.mk a, String.mk b]

/-- The substring after the last `.` of the URL, or the whole URL when it
contains no dot — exactly what the source hands to the highlighter. -/
def urlExtension (u : String) : String :=
  match splitLastDot u.data with
  | none => u
  | some (_, a) => String.mk a

/-- `syntax_highlighting(ctx, response, text)` of `src/app.rs`: takes the first
element of `rsplitn(2, '.')` as the extension (the `?` never fires) and always
produces a `ColoredText`. -/
def syntax_highlighting (response : Response) (text : String) : Option ColoredText :=
  (rsplitn2Dot response.url).head?.map fun extension => ColoredText.mk (highlight text extension)

/-- The `Resource` struct of `src/app.rs`. -/
structure Resource where
  response : Response
  text : Option String
  image : Option Image
  colored_text : Option ColoredText
deriving Repr, DecidableEq

/-- `Resource::from_response`. -/
def Resource.from_response (response : Response) : Resource :=
  let content_type := response.content_type.getD ("")
  if strStartsWith content_type ("image/") then
    { response := response, text := none, colored_text := none
      image := some ⟨response.url⟩ }
  else
    let text := response.text
    let colored_text := text.bind fun t => syntax_highlighting response t
    { response := response, text := text, colored_text := colored_text, image := none }

/-- Modelled from the spec for comparison with the source (claim C2): the spec
says colored text appears iff the URL "ends in a known file extension, the
substring after the last '.' of the URL path"; with no dot there is no
extension, known or not.  `known` is the highlighter's extension list. -/
def urlEndsInKnownExtension (known : List String) (u : String) : Bool :=
  match splitLastDot u.data with
  | none => false
  | some (_, a) => known.contains (String.mk a)

/-- A representative list of extensions the highlighter knows. -/
def knownExtensions : List String := ["rs", "md", "toml", "c", "cpp", "py", "js"]

/-- The application-state slice relevant to the fetch flow: `promise` is the
single `Option<Promise>` slot of `HttpApp` (holding the id of the fetch whose
handle is stored), `completed` records which fetches' callbacks have run. -/
structure FetchWorld where
  promise : Option Nat
  completed : List Nat
deriving Repr, DecidableEq

/-- `self.promise = Some(promise)`: starting a fetch overwrites the slot. -/
def FetchWorld.startFetch (w : FetchWorld) (id : Nat) : FetchWorld :=
  { w with promise := some id }

/-- A fetch callback fires (in any order, on the worker context). -/
def FetchWorld.complete (w : FetchWorld) (id : Nat) : FetchWorld :=
  { w with completed := id :: w.completed }

/-- An arbitrary interleaving of callback completions. -/
def FetchWorld.completeAll (w : FetchWorld) : List Nat → FetchWorld
  | [] => w
  | id :: ids => (w.complete id).completeAll ids

/-- The per-frame poll `if let Some(promise) = &self.promise { promise.ready() }`:
observes the stored handle's id and whether that fetch has completed. -/
def FetchWorld.poll (w : FetchWorld) : Option (Nat × Bool) :=
  w.promise.map fun id => (id, w.completed.contains id)

/-- The row that inserting `Card::default()` into the empty table produces:
rowid 1 assigned by the store, all other fields the `Default` placeholders. -/
def firstInsertedCard : Card :=
  { rowid := some 1, deleted := false, title := "", question := "", answer := ""
    last_question_viewed_ms := 0, last_answer_viewed_ms := 0 }

/-- A concrete store used to instantiate the theorems: rowids 1, 3, 5 with the
row at rowid 3 soft-deleted. -/
def demoStore : Store :=
  [ { rowid := some 1, deleted := false, title := "alpha", question := "q1", answer := "a1"
      last_question_viewed_ms := 0, last_answer_viewed_ms := 0 }
  , { rowid := some 3, deleted := true, title := "beta", question := "q2", answer := "a2"
      last_question_viewed_ms := 0, last_answer_viewed_ms := 0 }
  , { rowid := some 5, deleted := false, title := "gamma", question := "q3", answer := "a3"
      last_question_viewed_ms := 0, last_answer_viewed_ms := 0 } ]

/-! ## Helper lemmas -/

theorem listMin_eq_none {l : List Int} : listMin l = none ↔ l = [] := by
  cases l with
  | nil => simp [listMin]
  | cons x xs => simp [listMin]

theorem listMin_mem {m : Int} : ∀ {l : List Int}, listMin l = some m → m ∈ l := by
  intro l
  induction l with
  | nil => simp [listMin]
  | cons x xs ih =>
    intro h
    simp only [listMin, Option.some.injEq] at h
    cases hx : listMin xs with
    | none =>
      rw [hx] at h
      simp only [Option.elim] at h
      subst h
      exact List.mem_cons_self x xs
    | some k =>
      rw [hx] at h
      simp only [Option.elim] at h
      rcases le_total x k with hle | hle
      · rw [min_eq_left hle] at h
        subst h
        exact List.mem_cons_self x xs
      · rw [min_eq_right hle] at h
        subst h
        exact List.mem_cons_of_mem x (ih hx)

theorem listMin_le : ∀ {l : List Int} {m : Int}, listMin l = some m → ∀ x ∈ l, m ≤ x := by
  intro l
  induction l with
  | nil => intro m h; simp [listMin] at h
  | cons x xs ih =>
    intro m h y hy
    simp only [listMin, Option.some.injEq] at h
    cases hx : listMin xs with
    | none =>
      rw [hx] at h
      simp only [Option.elim] at h
      have hxs : xs = [] := listMin_eq_none.mp hx
      subst hxs
      simp only [List.mem_singleton] at hy
      subst hy
      subst h
      exact le_refl _
    | some k =>
      rw [hx] at h
      simp only [Option.elim] at h
      subst h
      rcases List.mem_cons.mp hy with rfl | hmem
      · exact min_le_left _ _
      · exact le_trans (min_le_right x k) (ih hx y hmem)

theorem listMax_eq_none {l : List Int} : listMax l = none ↔ l = [] := by
  cases l with
  | nil => simp [listMax]
  | cons x xs => simp [listMax]

theorem listMax_mem {m : Int} : ∀ {l : List Int}, listMax l = some m → m ∈ l := by
  intro l
  induction l with
  | nil => simp [listMax]
  | cons x xs ih =>
    intro h
    simp only [listMax, Option.some.injEq] at h
    cases hx : listMax xs with
    | none =>
      rw [hx] at h
      simp only [Option.elim] at h
      subst h
      exact List.mem_cons_self x xs
    | some k =>
      rw [hx] at h
      simp only [Option.elim] at h
      rcases le_total x k with hle | hle
      · rw [max_eq_right hle] at h
        subst h
        exact List.mem_cons_of_mem x (ih hx)
      · rw [max_eq_left hle] at h
        subst h
        exact List.mem_cons_self x xs

theorem listMax_ge : ∀ {l : List Int} {m : Int}, listMax l = some m → ∀ x ∈ l, x ≤ m := by
  intro l
  induction l with
  | nil => intro m h; simp [listMax] at h
  | cons x xs ih =>
    intro m h y hy
    simp only [listMax, Option.some.injEq] at h
    cases hx : listMax xs with
    | none =>
      rw [hx] at h
      simp only [Option.elim] at h
      have hxs : xs = [] := listMax_eq_none.mp hx
      subst hxs
      simp only [List.mem_singleton] at hy
      subst hy
      subst h
      exact le_refl _
    | some k =>
      rw [hx] at h
      simp only [Option.elim] at h
      subst h
      rcases List.mem_cons.mp hy with rfl | hmem
      · exact le_max_left _ _
      · exact le_trans (ih hx y hmem) (le_max_right x k)

theorem mem_activeRowidsGt {s : Store} {n m : Int} :
    m ∈ s.activeRowidsGt n ↔ s.isActiveGt n m = true := by
  simp only [Store.activeRowidsGt, Store.isActiveGt, List.mem_filter, List.mem_filterMap,
    List.any_eq_true, Bool.and_eq_true, beq_iff_eq, Bool.not_eq_true', decide_eq_true_eq]
  tauto

theorem mem_activeRowidsLt {s : Store} {n m : Int} :
    m ∈ s.activeRowidsLt n ↔ s.isActiveLt n m = true := by
  simp only [Store.activeRowidsLt, Store.isActiveLt, List.mem_filter, List.mem_filterMap,
    List.any_eq_true, Bool.and_eq_true, beq_iff_eq, Bool.not_eq_true', decide_eq_true_eq]
  tauto

theorem minRowidGt_some {s : Store} {n m : Int} (h : s.minRowidGt n = some m) :
    s.isActiveGt n m = true ∧ ∀ k, s.isActiveGt n k = true → m ≤ k :=
  ⟨mem_activeRowidsGt.mp (listMin_mem h),
   fun k hk => listMin_le h k (mem_activeRowidsGt.mpr hk)⟩

theorem minRowidGt_none {s : Store} {n : Int} (h : s.minRowidGt n = none) :
    ∀ k, s.isActiveGt n k = false := by
  intro k
  rw [← Bool.not_eq_true]
  intro hk
  have hmem := mem_activeRowidsGt.mpr hk
  rw [listMin_eq_none.mp h] at hmem
  simp at hmem

theorem maxRowidLt_some {s : Store} {n m : Int} (h : s.maxRowidLt n = some m) :
    s.isActiveLt n m = true ∧ ∀ k, s.isActiveLt n k = true → k ≤ m :=
  ⟨mem_activeRowidsLt.mp (listMax_mem h),
   fun k hk => listMax_ge h k (mem_activeRowidsLt.mpr hk)⟩

theorem maxRowidLt_none {s : Store} {n : Int} (h : s.maxRowidLt n = none) :
    ∀ k, s.isActiveLt n k = false := by
  intro k
  rw [← Bool.not_eq_true]
  intro hk
  have hmem := mem_activeRowidsLt.mpr hk
  rw [listMax_eq_none.mp h] at hmem
  simp at hmem

theorem isActiveGt_exists {s : Store} {n m : Int} (h : s.isActiveGt n m = true) :
    (∃ c ∈ s, c.rowid = some m ∧ c.deleted = false) ∧ n < m := by
  simp only [Store.isActiveGt, List.any_eq_true, Bool.and_eq_true, beq_iff_eq,
    Bool.not_eq_true', decide_eq_true_eq] at h
  tauto

theorem isActiveLt_exists {s : Store} {n m : Int} (h : s.isActiveLt n m = true) :
    (∃ c ∈ s, c.rowid = some m ∧ c.deleted = false) ∧ m < n := by
  simp only [Store.isActiveLt, List.any_eq_true, Bool.and_eq_true, beq_iff_eq,
    Bool.not_eq_true', decide_eq_true_eq] at h
  tauto

theorem filterMap_nodup_inj {α β : Type _} {f : α → Option β} :
    ∀ {l : List α}, (l.filterMap f).Nodup →
      ∀ c ∈ l, ∀ c2 ∈ l, ∀ m, f c = some m → f c2 = some m → c = c2 := by
  intro l
  induction l with
  | nil => simp
  | cons x xs ih =>
    intro hnd c hc c2 hc2 m hfc hfc2
    rcases List.mem_cons.mp hc with hcx | hcxs
    · rcases List.mem_cons.mp hc2 with hc2x | hc2xs
      · rw [hcx, hc2x]
      · exfalso
        have hhead : f x = some m := by rw [← hcx]; exact hfc
        rw [List.filterMap_cons_some hhead] at hnd
        have hm : m ∈ xs.filterMap f := List.mem_filterMap.mpr ⟨c2, hc2xs, hfc2⟩
        exact (List.nodup_cons.mp hnd).1 hm
    · rcases List.mem_cons.mp hc2 with hc2x | hc2xs
      · exfalso
        have hhead : f x = some m := by rw [← hc2x]; exact hfc2
        rw [List.filterMap_cons_some hhead] at hnd
        have hm : m ∈ xs.filterMap f := List.mem_filterMap.mpr ⟨c, hcxs, hfc⟩
        exact (List.nodup_cons.mp hnd).1 hm
      · refine ih ?_ c hcxs c2 hc2xs m hfc hfc2
        cases hfx : f x with
        | none => rw [List.filterMap_cons_none hfx] at hnd; exact hnd
        | some b =>
          rw [List.filterMap_cons_some hfx] at hnd
          exact (List.nodup_cons.mp hnd).2

theorem active_rowid_unique {s : Store} (hnd : (s.filterMap Card.rowid).Nodup)
    {m : Int} (hact : ∃ c ∈ s, c.rowid = some m ∧ c.deleted = false) :
    ∀ c ∈ s, c.rowid = some m → c.deleted = false := by
  rintro c hc hr
  rcases hact with ⟨c0, hc0, hr0, hdel0⟩
  have : c = c0 := filterMap_nodup_inj hnd c hc c0 hc0 m hr hr0
  rw [this]
  exact hdel0

theorem rowid_markDeleted (x : Card) : ({ x with deleted := true } : Card).rowid = x.rowid := rfl

theorem softDelete_map_rowid (s : Store) (n : Int) :
    (s.softDelete n).map Card.rowid = s.map Card.rowid := by
  unfold Store.softDelete
  rw [List.map_map]
  apply List.map_congr_left
  intro a _
  by_cases h : (a.rowid == some n) = true <;> simp [Function.comp, h]

theorem softDeletes_map_rowid : ∀ (ids : List Int) (s : Store),
    (Store.softDeletes s ids).map Card.rowid = s.map Card.rowid := by
  intro ids
  induction ids with
  | nil => intro s; rfl
  | cons i is ih =>
    intro s
    have h1 : Store.softDeletes s (i :: is) = Store.softDeletes (s.softDelete i) is := rfl
    rw [h1, ih, softDelete_map_rowid]

theorem filterMap_rowid_congr {s t : Store} (h : t.map Card.rowid = s.map Card.rowid) :
    t.filterMap Card.rowid = s.filterMap Card.rowid := by
  have hcomp : id ∘ Card.rowid = Card.rowid := rfl
  have ht : t.filterMap Card.rowid = (t.map Card.rowid).filterMap id := by
    rw [List.filterMap_map, hcomp]
  have hs : s.filterMap Card.rowid = (s.map Card.rowid).filterMap id := by
    rw [List.filterMap_map, hcomp]
  rw [ht, hs, h]

theorem listActive_not_deleted (s : Store) : ∀ c ∈ s.listActive, c.deleted = false := by
  intro c hc
  have h := (List.mem_filter.mp hc).2
  simpa using h

theorem softDelete_marks {s : Store} {sel : Int} :
    ∀ c ∈ s.softDelete sel, c.rowid = some sel → c.deleted = true := by
  intro c hc hr
  rcases List.mem_map.mp hc with ⟨c0, hc0, rfl⟩
  by_cases h : (c0.rowid == some sel) = true
  · simp only [h, if_true]
  · simp only [h, if_false] at hr ⊢
    rw [beq_iff_eq] at h  -- h is the negation of the beq equation
    exact absurd hr h

theorem setField_rowid (c : Card) (f : Field) (v : String) :
    (c.setField f v).rowid = c.rowid := by
  cases f <;> rfl

theorem getField_setField (c : Card) (f : Field) (v : String) :
    (c.setField f v).getField f = v := by
  cases f <;> rfl

theorem rsplitn2Dot_head (u : String) : (rsplitn2Dot u).head? = some (urlExtension u) := by
  unfold rsplitn2Dot urlExtension
  cases h : splitLastDot u.data with
  | none => simp
  | some p =>
    obtain ⟨b, a⟩ := p
    simp

theorem from_response_image {r : Response}
    (h : strStartsWith (r.content_type.getD ("")) ("image/") = true) :
    Resource.from_response r =
      { response := r, text := none, colored_text := none, image := some ⟨r.url⟩ } := by
  unfold Resource.from_response
  simp [h]

theorem bind_syntax_highlighting (r : Response) :
    (r.text.bind fun t => syntax_highlighting r t) =
      r.text.map fun t => ColoredText.mk (highlight t (urlExtension r.url)) := by
  cases r.text <;> simp [syntax_highlighting, rsplitn2Dot_head]

theorem from_response_nonimage {r : Response}
    (h : strStartsWith (r.content_type.getD ("")) ("image/") = false) :
    Resource.from_response r =
      { response := r, text := r.text
        colored_text := r.text.map fun t => ColoredText.mk (highlight t (urlExtension r.url))
        image := none } := by
  simp only [Resource.from_response, h, Bool.false_eq_true, if_false]
  rw [bind_syntax_highlighting]

theorem completeAll_promise : ∀ (ids : List Nat) (w : FetchWorld),
    (w.completeAll ids).promise = w.promise := by
  intro ids
  induction ids with
  | nil => intro w; rfl
  | cons i is ih =>
    intro w
    have h1 : w.completeAll (i :: is) = (w.complete i).completeAll is := rfl
    rw [h1, ih]
    rfl

theorem updateField_found {n : Int} {f : Field} {v : String} :
    ∀ {s : Store}, (∃ c ∈ s, c.rowid = some n) →
      ((s.updateField n f v).getCard n).getField f = v := by
  intro s
  induction s with
  | nil => rintro ⟨c, hc, _⟩; exact absurd hc (List.not_mem_nil c)
  | cons x xs ih =>
    rintro ⟨c, hc, hr⟩
    by_cases hx : (x.rowid == some n) = true
    · unfold Store.updateField Store.getCard
      simp only [List.map_cons, hx, if_true]
      rw [List.find?_cons_of_pos _ (by rw [setField_rowid]; exact hx)]
      simp [getField_setField]
    · unfold Store.updateField Store.getCard
      simp only [List.map_cons]
      rw [if_neg hx, List.find?_cons_of_neg (p := fun d : Card => d.rowid == some n) _ hx]
      have hcxs : c ∈ xs := by
        rcases List.mem_cons.mp hc with hcx | h2
        · exfalso
          rw [hcx] at hr
          rw [beq_iff_eq] at hx
          exact hx hr
        · exact h2
      exact ih ⟨c, hcxs, hr⟩

theorem updateField_no_match {n : Int} {f : Field} {v : String} :
    ∀ {s : Store}, (∀ c ∈ s, c.rowid ≠ some n) → s.updateField n f v = s := by
  intro s
  induction s with
  | nil => intro h; rfl
  | cons x xs ih =>
    intro h
    have hx : ¬ (x.rowid == some n) = true := by
      simp only [beq_iff_eq]
      exact h x (List.mem_cons_self x xs)
    unfold Store.updateField
    simp only [List.map_cons, if_neg hx]
    congr 1
    exact ih fun c hc => h c (List.mem_cons_of_mem x hc)

/-! ## Claim theorems -/

/-- Claim C1, counterexample: the claim says no constructed Resource ever has
two of {image, colored-text, plain text} set at once; but a non-image response
with a decodable body yields a Resource with BOTH the plain-text and the
colored-text field set. -/
theorem c1_counterexample :
    ((Resource.from_response ⟨"http://a.rs", some ("text/plain"), some ("hello")⟩).text.isSome &&
      (Resource.from_response
        ⟨"http://a.rs", some ("text/plain"), some ("hello")⟩).colored_text.isSome) = true := by
  decide

/-- Claim C1 (amended): the image field excludes the other two (an image
response has text and colored-text unset), and a non-image response has image
unset; but colored-text and plain text are NOT mutually exclusive — for
non-image responses colored-text is set exactly when plain text is set.  The
four display shapes are made exclusive only by the rendering fallback chain,
not by the fields. -/
theorem c1_resource_shapes (r : Response) :
    (strStartsWith (r.content_type.getD ("")) ("image/") = true →
      (Resource.from_response r).image.isSome = true ∧
      (Resource.from_response r).text = none ∧
      (Resource.from_response r).colored_text = none) ∧
    (strStartsWith (r.content_type.getD ("")) ("image/") = false →
      (Resource.from_response r).image = none ∧
      (Resource.from_response r).colored_text.isSome = (Resource.from_response r).text.isSome) := by
  constructor
  · intro h
    rw [from_response_image h]
    exact ⟨rfl, rfl, rfl⟩
  · intro h
    rw [from_response_nonimage h]
    refine ⟨rfl, ?_⟩
    cases r.text <;> rfl

/-- Claim C1, witness for the amended theorem at concrete responses. -/
theorem c1_witness :
    (Resource.from_response ⟨"http://a.png", some ("image/png"), none⟩).image.isSome = true ∧
    (Resource.from_response ⟨"http://b.rs", some ("text/plain"), some ("hi")⟩).image = none :=
  ⟨((c1_resource_shapes ⟨"http://a.png", some ("image/png"), none⟩).1 (by decide)).1,
   ((c1_resource_shapes ⟨"http://b.rs", some ("text/plain"), some ("hi")⟩).2 (by decide)).1⟩

/-- Claim C2, counterexample: the claim says colored-text is set iff the URL
ends in a known file extension (the substring after the last '.').  But for a
URL containing no dot at all — hence with no extension, known or not — the
colored-text field is still set whenever the body decodes. -/
theorem c2_counterexample :
    (Resource.from_response
        ⟨"httpnodot", some ("text/plain"), some ("hello")⟩).colored_text.isSome = true ∧
    urlEndsInKnownExtension knownExtensions ("httpnodot") = false := by
  exact ⟨by decide, by decide⟩

/-- Claim C2 (amended): for every non-image response the plain-text field
equals the decoded body, and the colored-text field is set iff the body
decodes — independent of the URL's extension.  The highlighter receives the
substring after the last '.' of the whole URL (the whole URL when it has no
dot); an unknown extension degrades inside the highlighter instead of omitting
the variant, and absence of extension information never fails the fetch. -/
theorem c2_colored_text (r : Response) :
    strStartsWith (r.content_type.getD ("")) ("image/") = false →
      (Resource.from_response r).text = r.text ∧
      (Resource.from_response r).colored_text =
        r.text.map (fun t => ColoredText.mk (highlight t (urlExtension r.url))) ∧
      (Resource.from_response r).colored_text.isSome = r.text.isSome := by
  intro h
  rw [from_response_nonimage h]
  refine ⟨rfl, rfl, ?_⟩
  cases r.text <;> rfl

/-- Claim C2, witness for the amended theorem at a concrete response. -/
theorem c2_witness :
    (Resource.from_response ⟨"http://a.rs", some ("text/plain"), some ("hi")⟩).colored_text =
      (some ("hi")).map
        (fun t => ColoredText.mk (highlight t (urlExtension ("http://a.rs")))) :=
  ((c2_colored_text ⟨"http://a.rs", some ("text/plain"), some ("hi")⟩) (by decide)).2.1

/-- Claim C3: classification of a completed response.  An image content type
yields image set with text and colored-text unset; a non-image response with a
decodable body yields text set and image unset; a non-image response with an
undecodable body yields neither text, image, nor colored-text. -/
theorem c3_classification (r : Response) :
    (strStartsWith (r.content_type.getD ("")) ("image/") = true →
      (Resource.from_response r).image = some ⟨r.url⟩ ∧
      (Resource.from_response r).text = none ∧
      (Resource.from_response r).colored_text = none) ∧
    (∀ t, strStartsWith (r.content_type.getD ("")) ("image/") = false → r.text = some t →
      (Resource.from_response r).text = some t ∧ (Resource.from_response r).image = none) ∧
    (strStartsWith (r.content_type.getD ("")) ("image/") = false → r.text = none →
      (Resource.from_response r).text = none ∧ (Resource.from_response r).image = none ∧
      (Resource.from_response r).colored_text = none) := by
  refine ⟨?_, ?_, ?_⟩
  · intro h
    rw [from_response_image h]
    exact ⟨rfl, rfl, rfl⟩
  · intro t h ht
    rw [from_response_nonimage h, ht]
    exact ⟨rfl, rfl⟩
  · intro h ht
    rw [from_response_nonimage h, ht]
    exact ⟨rfl, rfl, rfl⟩

/-- Claim C3, witness at an image response, a text response, and an
undecodable non-image response. -/
theorem c3_witness :
    (Resource.from_response ⟨"http://a.png", some ("image/png"), none⟩).image =
      some ⟨"http://a.png"⟩ ∧
    (Resource.from_response ⟨"http://t.txt", some ("text/plain"), some ("hi")⟩).text =
      some ("hi") ∧
    (Resource.from_response
      ⟨"http://b.bin", some ("application/octet-stream"), none⟩).colored_text = none :=
  ⟨((c3_classification ⟨"http://a.png", some ("image/png"), none⟩).1 (by decide)).1,
   ((c3_classification ⟨"http://t.txt", some ("text/plain"), some ("hi")⟩).2.1
     ("hi") (by decide) rfl).1,
   ((c3_classification ⟨"http://b.bin", some ("application/octet-stream"), none⟩).2.2
     (by decide) rfl).2.2⟩

/-- Claim C4: pressing Enter with no existing cards leaves exactly one card in
the store, holding the default placeholder field values of `Card::default()`
(rowid assigned by the store, soft-delete flag clear, empty text fields); and
when the underlying store rejects the insert, the operation aborts
(`enterKeyChecked` returns `none`, mirroring the `.unwrap()`). -/
theorem c4_enter_inserts_default (sel : Int) (e : String) (s0 : Store) :
    (handleKey Key.enter sel []).2 = [firstInsertedCard] ∧
    (handleKey Key.enter sel []).2.length = 1 ∧
    firstInsertedCard.title = Card.defaultCard.title ∧
    firstInsertedCard.question = Card.defaultCard.question ∧
    firstInsertedCard.answer = Card.defaultCard.answer ∧
    firstInsertedCard.deleted = false ∧
    enterKeyChecked none sel [] = some (sel, [firstInsertedCard]) ∧
    enterKeyChecked (some e) sel s0 = none := by
  exact ⟨rfl, rfl, rfl, rfl, rfl, rfl, rfl, rfl⟩

/-- Claim C5: ArrowDown moves the selection to the smallest non-deleted rowid
strictly greater than the current one and leaves it unchanged when none
exists; ArrowUp moves it to the largest non-deleted rowid strictly smaller
and leaves it unchanged when none exists; neither touches the store. -/
theorem c5_arrow_navigation (s : Store) (sel : Int) :
    ((handleKey Key.arrowDown sel s).2 = s ∧ (handleKey Key.arrowUp sel s).2 = s) ∧
    (∀ m, s.minRowidGt sel = some m →
      (handleKey Key.arrowDown sel s).1 = m ∧ s.isActiveGt sel m = true ∧
        ∀ k, s.isActiveGt sel k = true → m ≤ k) ∧
    (s.minRowidGt sel = none →
      (handleKey Key.arrowDown sel s).1 = sel ∧ ∀ k, s.isActiveGt sel k = false) ∧
    (∀ m, s.maxRowidLt sel = some m →
      (handleKey Key.arrowUp sel s).1 = m ∧ s.isActiveLt sel m = true ∧
        ∀ k, s.isActiveLt sel k = true → k ≤ m) ∧
    (s.maxRowidLt sel = none →
      (handleKey Key.arrowUp sel s).1 = sel ∧ ∀ k, s.isActiveLt sel k = false) := by
  refine ⟨⟨rfl, rfl⟩, ?_, ?_, ?_, ?_⟩
  · intro m hm
    have h := minRowidGt_some hm
    refine ⟨?_, h.1, h.2⟩
    show (s.minRowidGt sel).getD sel = m
    rw [hm]
    rfl
  · intro hm
    refine ⟨?_, minRowidGt_none hm⟩
    show (s.minRowidGt sel).getD sel = sel
    rw [hm]
    rfl
  · intro m hm
    have h := maxRowidLt_some hm
    refine ⟨?_, h.1, h.2⟩
    show (s.maxRowidLt sel).getD sel = m
    rw [hm]
    rfl
  · intro hm
    refine ⟨?_, maxRowidLt_none hm⟩
    show (s.maxRowidLt sel).getD sel = sel
    rw [hm]
    rfl

/-- Claim C5, witness on the concrete store: ArrowDown from 1 skips the
deleted rowid 3 and lands on 5; ArrowUp from 60 lands on 5; ArrowDown from 60
leaves the selection unchanged. -/
theorem c5_witness :
    (handleKey Key.arrowDown 1 demoStore).1 = 5 ∧
    (handleKey Key.arrowUp 60 demoStore).1 = 5 ∧
    (handleKey Key.arrowDown 60 demoStore).1 = 60 :=
  ⟨((c5_arrow_navigation demoStore 1).2.1 5 (by decide)).1,
   ((c5_arrow_navigation demoStore 60).2.2.2.1 5 (by decide)).1,
   ((c5_arrow_navigation demoStore 60).2.2.1 (by decide)).1⟩

/-- Claim C6: the application state holds at most one fetch handle (a single
`Option` slot); after starting fetch A and then fetch B, every later frame's
poll observes only B's handle, regardless of which completions arrive and in
what order. -/
theorem c6_single_fetch_slot (w : FetchWorld) (a b : Nat) (ids : List Nat) :
    (((w.startFetch a).startFetch b).completeAll ids).promise = some b ∧
    (((w.startFetch a).startFetch b).completeAll ids).poll =
      some (b, (((w.startFetch a).startFetch b).completeAll ids).completed.contains b) := by
  have hp : (((w.startFetch a).startFetch b).completeAll ids).promise = some b := by
    rw [completeAll_promise]
    rfl
  refine ⟨hp, ?_⟩
  unfold FetchWorld.poll
  rw [hp]
  rfl

/-- Claim C7: under unique rowids, after any sequence of soft-deletes the
active-card listing contains no soft-deleted card, next/previous navigation
never lands on a soft-deleted rowid, and no row is physically erased (the
rowid column is preserved row for row). -/
theorem c7_soft_delete_invariants (s : Store) (ids : List Int) (sel : Int)
    (hnd : (s.filterMap Card.rowid).Nodup) :
    (∀ c ∈ (Store.softDeletes s ids).listActive, c.deleted = false) ∧
    (Store.softDeletes s ids).map Card.rowid = s.map Card.rowid ∧
    (∀ m, (Store.softDeletes s ids).minRowidGt sel = some m →
      ∀ c ∈ Store.softDeletes s ids, c.rowid = some m → c.deleted = false) ∧
    (∀ m, (Store.softDeletes s ids).maxRowidLt sel = some m →
      ∀ c ∈ Store.softDeletes s ids, c.rowid = some m → c.deleted = false) := by
  have hmap := softDeletes_map_rowid ids s
  have hnd2 : ((Store.softDeletes s ids).filterMap Card.rowid).Nodup := by
    rw [filterMap_rowid_congr hmap]
    exact hnd
  refine ⟨listActive_not_deleted _, hmap, ?_, ?_⟩
  · intro m hm
    exact active_rowid_unique hnd2 (isActiveGt_exists (minRowidGt_some hm).1).1
  · intro m hm
    exact active_rowid_unique hnd2 (isActiveLt_exists (maxRowidLt_some hm).1).1

/-- Claim C7, witness on the concrete store after soft-deleting rowids 5
and 1. -/
theorem c7_witness :
    (∀ c ∈ (Store.softDeletes demoStore [5, 1]).listActive, c.deleted = false) ∧
    (Store.softDeletes demoStore [5, 1]).map Card.rowid = demoStore.map Card.rowid :=
  ⟨(c7_soft_delete_invariants demoStore [5, 1] 0 (by decide)).1,
   (c7_soft_delete_invariants demoStore [5, 1] 0 (by decide)).2.1⟩

/-- Claim C8: updating one field of an existing card and re-fetching that
rowid returns the updated value in that field; updating a rowid that matches
no card leaves the store unchanged (a no-op, not a failure). -/
theorem c8_update_roundtrip (s : Store) (n : Int) (f : Field) (v : String) :
    ((∃ c ∈ s, c.rowid = some n) →
      ((s.updateField n f v).getCard n).getField f = v) ∧
    ((∀ c ∈ s, c.rowid ≠ some n) → s.updateField n f v = s) :=
  ⟨fun h => updateField_found h, fun h => updateField_no_match h⟩

/-- Claim C8, witness: updating the title of the card at rowid 5 and updating
a non-existent rowid 99 on the concrete store. -/
theorem c8_witness :
    ((demoStore.updateField 5 Field.title ("new title")).getCard 5).getField Field.title =
      "new title" ∧
    demoStore.updateField 99 Field.answer ("zz") = demoStore :=
  ⟨(c8_update_roundtrip demoStore 5 Field.title ("new title")).1 (by decide),
   (c8_update_roundtrip demoStore 99 Field.answer ("zz")).2 (by decide)⟩

/-- Claim C9: fetching a card by a rowid that matches no stored card returns
the default record with empty placeholder fields instead of failing. -/
theorem c9_missing_card_default (s : Store) (n : Int)
    (h : ∀ c ∈ s, c.rowid ≠ some n) :
    s.getCard n = Card.defaultCard ∧ (s.getCard n).title = "" ∧
    (s.getCard n).question = "" ∧ (s.getCard n).answer = "" := by
  have hfind : (s.find? fun c => c.rowid == some n) = none := by
    rw [List.find?_eq_none]
    intro x hx
    simp only [beq_iff_eq]
    exact h x hx
  have hget : s.getCard n = Card.defaultCard := by
    unfold Store.getCard
    rw [hfind]
    rfl
  refine ⟨hget, ?_, ?_, ?_⟩ <;> rw [hget] <;> rfl

/-- Claim C9, witness: rowid 99 resolves to no card of the concrete store. -/
theorem c9_witness : demoStore.getCard 99 = Card.defaultCard :=
  (c9_missing_card_default demoStore 99 (by decide)).1

/-- Claim C10: Backspace soft-deletes the selected rowid, then sets the
selection to the smallest non-deleted rowid strictly greater than it, or to 0
when no such rowid exists — unlike arrow navigation, which would leave the
selection unchanged. -/
theorem c10_backspace (s : Store) (sel : Int) :
    ((handleKey Key.backspace sel s).2 = s.softDelete sel) ∧
    (∀ c ∈ s.softDelete sel, c.rowid = some sel → c.deleted = true) ∧
    (∀ m, (s.softDelete sel).minRowidGt sel = some m →
      (handleKey Key.backspace sel s).1 = m ∧ (s.softDelete sel).isActiveGt sel m = true ∧
        ∀ k, (s.softDelete sel).isActiveGt sel k = true → m ≤ k) ∧
    ((s.softDelete sel).minRowidGt sel = none →
      (handleKey Key.backspace sel s).1 = 0 ∧
        ∀ k, (s.softDelete sel).isActiveGt sel k = false) := by
  refine ⟨rfl, softDelete_marks, ?_, ?_⟩
  · intro m hm
    have h := minRowidGt_some hm
    refine ⟨?_, h.1, h.2⟩
    show ((s.softDelete sel).minRowidGt sel).getD 0 = m
    rw [hm]
    rfl
  · intro hm
    refine ⟨?_, minRowidGt_none hm⟩
    show ((s.softDelete sel).minRowidGt sel).getD 0 = 0
    rw [hm]
    rfl

/-- Claim C10, witness: deleting rowid 1 moves the selection to 5; deleting
rowid 5 (the last active successor-free row) resets the selection to 0. -/
theorem c10_witness :
    (handleKey Key.backspace 1 demoStore).1 = 5 ∧
    (handleKey Key.backspace 5 demoStore).1 = 0 :=
  ⟨((c10_backspace demoStore 1).2.2.1 5 (by decide)).1,
   ((c10_backspace demoStore 5).2.2.2 (by decide)).1⟩

end Barnacle
